import Mathlib

/-!
Shallow embedding of the core of the noahs_helpers simulation
(src/core: animal.py, cell.py, sight.py, ark.py, player.py,
player_info.py, engine.py) together with theorems settling the
claims about it.

Continuous positions (Python floats) are embedded as rationals and the
float comparison sqrt(d) <= R is embedded as the equivalent comparison
of squares.  Python sets of reference-identity objects are embedded as
finsets of arena handles (for engine state) or as lists of values (for
view construction, where the random shuffle only permutes a collection
whose order no consumer may rely on).

Files of the repository that are referenced by src/core but absent from
src (constants.py, action.py, views/player_view.py) are modelled from
the spec; every such definition carries a doc comment starting with
"Modelled from the spec:".
-/

namespace Noah

/-- Gender of an animal (core/animal.py).  Unknown is a view-time
redaction, never a ground-truth state. -/
inductive Gender where
  | Male : Gender
  | Female : Gender
  | Unknown : Gender
deriving DecidableEq, Repr

/-- Animal value record (core/animal.py, dataclass Animal): species id
and gender.  The dataclass has eq=False, so containers distinguish
structurally equal animals; where that matters the embedding uses
arena handles instead of values. -/
structure AnimalVal where
  species_id : ℤ
  gender : Gender
deriving DecidableEq, Repr

/-- Animal.copy (core/animal.py): returns the animal itself when
make_unknown is false, otherwise a copy whose gender is Unknown. -/
def copyAnimal (make_unknown : Bool) (a : AnimalVal) : AnimalVal :=
  if make_unknown then { species_id := a.species_id, gender := Gender.Unknown } else a

/-- Modelled from the spec: core/views/player_view.py (the Kind enum) is
absent from src; spec section 3 gives the two roles Noah and Helper. -/
inductive Kind where
  | Noah : Kind
  | Helper : Kind
deriving DecidableEq, Repr

/-- Modelled from the spec: constants.py is absent from src; spec
section 3 gives the flock capacity as a small constant, e.g. 4, and the
strategies under src/players hard-code 4. -/
def MAX_FLOCK_SIZE : ℕ := 4

/-- Modelled from the spec: constants.py is absent from src; observation
messages are one byte in the range 0..255, so the exclusive bound is 256. -/
def ONE_BYTE : ℤ := 256

/-- Modelled from the spec: constants.py is absent from src; spec
section 4.1 gives the sight radius as a constant, e.g. 5 km-units. -/
def MAX_SIGHT_KM : ℤ := 5

/-- Modelled from the spec: constants.py is absent from src; spec
section 3 defines the in-ark test as position equal to the ark position
within a small epsilon. -/
def EPS : ℚ := 1 / 1000000

/-- Modelled from the spec: constants.py is absent from src; spec
section 4.4 gives full credit for a species with both genders delivered.
The smallest integers realizing full and half credit are 2 and 1. -/
def SCORE_FOR_BOTH_GENDERS_SAVED : ℕ := 2

/-- Modelled from the spec: constants.py is absent from src; half
credit for a species with exactly one gender delivered. -/
def SCORE_FOR_EITHER_GENDER_SAVED : ℕ := 1

/-- Python int() applied to a float: truncation toward zero.  Positions
in the simulation stay in the nonnegative quadrant, where truncation
agrees with the floor function. -/
def pyInt (q : ℚ) : ℤ := if 0 ≤ q then ⌊q⌋ else -⌊-q⌋

/-- Per-axis distance of Sight.cell_is_in_sight (core/sight.py lines
50-63), translated literally.  The guard of the middle branch is
written cell - observer <= 1 exactly as in the source; since that
branch is only reached when observer >= cell, the guard always holds
and the final branch observer - cell - 1 is unreachable. -/
def axisDist (p : ℚ) (cell : ℤ) : ℚ :=
  if p < (cell : ℚ) then (cell : ℚ) - p
  else if (cell : ℚ) - p ≤ 1 then 0
  else p - (cell : ℚ) - 1

/-- West edge of the bounding box of Sight.__init__ (core/sight.py). -/
def sightWest (px : ℚ) : ℤ := max (pyInt px - MAX_SIGHT_KM) 0

/-- East edge of the bounding box of Sight.__init__ (core/sight.py). -/
def sightEast (px : ℚ) (X : ℤ) : ℤ := min (pyInt px + MAX_SIGHT_KM) (X - 1)

/-- North edge of the bounding box of Sight.__init__ (core/sight.py). -/
def sightNorth (py : ℚ) : ℤ := max (pyInt py - MAX_SIGHT_KM) 0

/-- South edge of the bounding box of Sight.__init__ (core/sight.py). -/
def sightSouth (py : ℚ) (Y : ℤ) : ℤ := min (pyInt py + MAX_SIGHT_KM) (Y - 1)

/-- Sight.cell_is_in_sight (core/sight.py lines 44-65): membership in
the clamped bounding box, then comparison of the two-axis Euclidean
norm with the sight radius.  The source compares
(dy^2 + dx^2) ** 0.5 <= R; both sides being nonnegative this is
embedded as the equivalent comparison of squares. -/
def cellIsInSight (px py : ℚ) (X Y : ℤ) (x y : ℤ) : Bool :=
  decide (sightWest px ≤ x ∧ x ≤ sightEast px X ∧
          sightNorth py ≤ y ∧ y ≤ sightSouth py Y ∧
          (axisDist py y) ^ 2 + (axisDist px x) ^ 2 ≤ ((MAX_SIGHT_KM : ℚ)) ^ 2)

/-- The per-axis distance as the claim states it (spec section 4.1),
written from the words of the spec for comparison with axisDist: if the
observer lies strictly before the cell the distance is cell - observer;
if the observer is within 1 unit past the cell start it is 0; otherwise
it is observer - cell - 1. -/
def specAxisDist (p : ℚ) (cell : ℤ) : ℚ :=
  if p < (cell : ℚ) then (cell : ℚ) - p
  else if p - (cell : ℚ) ≤ 1 then 0
  else p - (cell : ℚ) - 1

/-- Squared distance of the asymmetric per-axis rule of the claim,
axes combined by the Euclidean norm (squared). -/
def specDistSq (px py : ℚ) (x y : ℤ) : ℚ :=
  (specAxisDist px x) ^ 2 + (specAxisDist py y) ^ 2

/-- Public identity view of a helper (PlayerView of
core/views/player_view.py as used by Cell.get_view): id and kind only. -/
structure PlayerViewC where
  id : ℕ
  kind : Kind
deriving DecidableEq, Repr

/-- Occupying-helper record restricted to the fields Cell.get_view
reads from a PlayerInfo: id, kind and the carried flock. -/
structure HelperRec where
  id : ℕ
  kind : Kind
  flock : List AnimalVal
deriving DecidableEq, Repr

/-- Grid cell (core/cell.py): coordinates, the free animals and the
identities of the helpers occupying it.  The four neighbor links are
reconstructed from coordinates where needed and are not used by the
view construction. -/
structure CellC where
  x : ℤ
  y : ℤ
  animals : List AnimalVal
  helpers : List HelperRec
deriving DecidableEq, Repr

/-- CellView (core/views/cell_view.py).  The source stores a Python set
of freshly allocated copies after a random shuffle; since the animal
dataclass compares by object identity, that set is a collection of
values whose order no consumer may rely on, embedded as a list. -/
structure CellViewC where
  x : ℤ
  y : ℤ
  animals : List AnimalVal
  helpers : List PlayerViewC
deriving DecidableEq, Repr

/-- Cell.get_view (core/cell.py lines 21-36): copies of the free
animals, then copies of every animal in the flock of every occupying
helper, all built with the same make_unknown flag and merged into one
collection; the helpers are rendered as identity views.  The random
shuffle of the merged list is dropped: it only permutes the collection. -/
def getView (c : CellC) (make_unknown : Bool) : CellViewC :=
  { x := c.x
    y := c.y
    animals := c.animals.map (copyAnimal make_unknown) ++
      c.helpers.flatMap (fun h => h.flock.map (copyAnimal make_unknown))
    helpers := c.helpers.map (fun h => { id := h.id, kind := h.kind }) }

/-- The helper function of core/sight.py lines 9-16
(_create_cellview_at): build the view of the target cell, hiding
genders unless the helper cell coordinates equal the target cell
coordinates. -/
def createCellViewAt (grid : ℤ × ℤ → CellC) (tx ty hx hy : ℤ) : CellViewC :=
  getView (grid (tx, ty)) (!(hx == tx && hy == ty))

/-- One update step of Ark.get_species (core/ark.py lines 33-44): the
flag pair of the species of the animal gains its gender.  An animal of
a species missing from the table raises a KeyError in the source; the
embedding leaves the table unchanged there, and the theorems carry the
well-formedness hypothesis that rules the case out. -/
def speciesStep (m : List (ℤ × Bool × Bool)) (a : AnimalVal) : List (ℤ × Bool × Bool) :=
  m.map (fun e =>
    if e.1 = a.species_id then
      (e.1, e.2.1 || decide (a.gender = Gender.Male),
            e.2.2 || decide (a.gender = Gender.Female))
    else e)

/-- Ark.get_species (core/ark.py lines 33-44): flags initialized to
(false, false) for every species id of the table, then set by a pass
over the delivered animals. -/
def getSpecies (statsKeys : List ℤ) (animals : List AnimalVal) : List (ℤ × Bool × Bool) :=
  animals.foldl speciesStep (statsKeys.map (fun sid => (sid, false, false)))

/-- Ark.get_score (core/ark.py lines 19-31): add full credit for a
species with both flags set, half credit for exactly one flag. -/
def getScore (statsKeys : List ℤ) (animals : List AnimalVal) : ℕ :=
  (getSpecies statsKeys animals).foldl
    (fun s e =>
      if e.2.1 && e.2.2 then s + SCORE_FOR_BOTH_GENDERS_SAVED
      else if e.2.1 || e.2.2 then s + SCORE_FOR_EITHER_GENDER_SAVED
      else s) 0

/-- Presence of a gender of a species among the delivered animals (the
quantity the claim states the score through). -/
def hasGender (animals : List AnimalVal) (sid : ℤ) (g : Gender) : Bool :=
  animals.any (fun a => decide (a.species_id = sid) && decide (a.gender = g))

/-- Credit of one species from its two presence bits, as the claim
states it. -/
def speciesCredit (m f : Bool) : ℕ :=
  if m && f then SCORE_FOR_BOTH_GENDERS_SAVED
  else if m || f then SCORE_FOR_EITHER_GENDER_SAVED
  else 0

/-- Modelled from the spec: core/action.py is absent from src; spec
section 3 gives the action tagged union Move(x, y), Obtain(animal),
Release(animal); an absent action is the no-op.  Animals are referenced
by arena handle. -/
inductive ActionC where
  | move : ℚ → ℚ → ActionC
  | obtain : ℕ → ActionC
  | release : ℕ → ActionC
deriving DecidableEq, Repr

/-- Engine-side helper record.  The fields id, kind, x, y and flock are
the PlayerInfo record (core/player_info.py) the engine mutates; playerX
and playerY are the separately stored Player.position attribute
(core/player.py) that strategies maintain themselves and that the
engine consults for move legality, the in-ark test and messaging
distances.  The engine never writes playerX or playerY. -/
structure HelperState where
  id : ℕ
  kind : Kind
  x : ℚ
  y : ℚ
  playerX : ℚ
  playerY : ℚ
  flock : Finset ℕ
deriving DecidableEq

instance : Inhabited HelperState :=
  ⟨{ id := 0, kind := Kind.Noah, x := 0, y := 0, playerX := 0, playerY := 0, flock := ∅ }⟩

/-- The mutable world state the turn loop of Engine.run_turn acts on:
the helpers in engine iteration order (ascending id, the insertion
order of the info_helpers dict built by runner.py), the free animals of
every cell, and the delivered animals of the ark.  The per-cell
occupying-helper cache and the free_animals dict of the source are
derived data and are reconstructed from this state where needed. -/
structure EngineState where
  helpers : List HelperState
  grid : ℤ × ℤ → Finset ℕ
  arkAnimals : Finset ℕ

/-- Player.is_in_ark (core/player.py lines 67-72): both coordinates
within EPS of the ark position. -/
def isInArkPos (pX pY : ℚ) (arkX arkY : ℤ) : Bool :=
  decide (|pX - (arkX : ℚ)| ≤ EPS ∧ |pY - (arkY : ℚ)| ≤ EPS)

/-- Player.can_move_to (core/player.py lines 82-92, duplicated in
core/player_info.py lines 113-122): Noah may never move; the target
must satisfy 0 <= x < X and 0 <= y < Y; and the source compares
(abs(cx - x) ** 2 + abs(cy - y) ** 2) * 0.5 <= MAX_DISTANCE_KM — half
the squared Euclidean distance, not the distance itself.  The constant
MAX_DISTANCE_KM lives in the absent constants.py and is kept as the
parameter maxDist. -/
def canMoveTo (maxDist : ℚ) (X Y : ℤ) (k : Kind) (cx cy x y : ℚ) : Bool :=
  if k = Kind.Noah then false
  else decide ((0 ≤ x ∧ x < (X : ℚ) ∧ 0 ≤ y ∧ y < (Y : ℚ)) ∧
    (|cx - x| ^ 2 + |cy - y| ^ 2) * (1 / 2) ≤ maxDist)

/-- Append a requester index to the batch of pending Obtain requests
(the obtained dict of Engine.run_turn, keyed by animal in insertion
order, each value keeping its requesters in arrival order). -/
def addRequest (ob : List (ℕ × List ℕ)) (a : ℕ) (i : ℕ) : List (ℕ × List ℕ) :=
  if ob.any (fun e => e.1 == a) then
    ob.map (fun e => if e.1 == a then (e.1, e.2 ++ [i]) else e)
  else ob ++ [(a, [i])]

/-- Validation and application of the action of the helper at index i
(the match block of Engine.run_turn, core/engine.py lines 119-180).
Release moves the animal from the flock to the current cell; Obtain is
validated (flock not at capacity, animal present in the current cell)
and batched; Move is validated through Player.can_move_to against the
strategy-maintained position, the engine position is updated, and when
Player.is_in_ark holds afterwards — again on the strategy-maintained
position, which the move did not change — the flock is unloaded into
the ark.  The per-cell occupying-helper bookkeeping of the source
mutates only derived data and is omitted. -/
def applyOne (maxDist : ℚ) (X Y arkX arkY : ℤ) (s : EngineState)
    (ob : List (ℕ × List ℕ)) (i : ℕ) (act : Option ActionC) :
    Except String (EngineState × List (ℕ × List ℕ)) :=
  match s.helpers.get? i with
  | none => Except.ok (s, ob)
  | some hi =>
    match act with
    | none => Except.ok (s, ob)
    | some a =>
      if hi.kind = Kind.Noah then Except.error "Noah should not perform an action"
      else
        match a with
        | ActionC.release an =>
          let cx := pyInt hi.x
          let cy := pyInt hi.y
          if an ∉ hi.flock then Except.error "animal not in helper flock"
          else Except.ok
            ({ s with
                helpers := s.helpers.set i { hi with flock := hi.flock.erase an }
                grid := fun p =>
                  if p = (cx, cy) then insert an (s.grid (cx, cy)) else s.grid p },
              ob)
        | ActionC.obtain an =>
          let cx := pyInt hi.x
          let cy := pyInt hi.y
          if MAX_FLOCK_SIZE ≤ hi.flock.card then
            Except.error "helper tried to obtain animal with full flock"
          else if an ∉ s.grid (cx, cy) then
            Except.error "animal not in helper cell"
          else Except.ok (s, addRequest ob an i)
        | ActionC.move x y =>
          if !canMoveTo maxDist X Y hi.kind hi.playerX hi.playerY x y then
            Except.error "player cannot move"
          else
            let hi2 := { hi with x := x, y := y }
            if isInArkPos hi2.playerX hi2.playerY arkX arkY then
              Except.ok
                ({ s with
                    helpers := s.helpers.set i { hi2 with flock := ∅ }
                    arkAnimals := s.arkAnimals ∪ hi2.flock },
                  ob)
            else Except.ok ({ s with helpers := s.helpers.set i hi2 }, ob)

/-- Fold of applyOne over the actions of all helpers in engine order,
starting at index i (the action loop of Engine.run_turn). -/
def actionPhaseFrom (maxDist : ℚ) (X Y arkX arkY : ℤ) (i : ℕ) :
    EngineState → List (ℕ × List ℕ) → List (Option ActionC) →
    Except String (EngineState × List (ℕ × List ℕ))
  | s, ob, [] => Except.ok (s, ob)
  | s, ob, act :: rest => do
    let (s2, ob2) ← applyOne maxDist X Y arkX arkY s ob i act
    actionPhaseFrom maxDist X Y arkX arkY (i + 1) s2 ob2 rest

/-- The action collection phase of Engine.run_turn: acts pairs one
optional action with each helper, in engine iteration order. -/
def actionPhase (maxDist : ℚ) (X Y arkX arkY : ℤ) (s : EngineState)
    (acts : List (Option ActionC)) :
    Except String (EngineState × List (ℕ × List ℕ)) :=
  actionPhaseFrom maxDist X Y arkX arkY 0 s ∅ acts

/-- Strict lexicographic order on the Python key tuple
(len(flock), id). -/
def keyLt (p q : ℕ × ℕ) : Bool :=
  decide (p.1 < q.1) || (decide (p.1 = q.1) && decide (p.2 < q.2))

/-- Weak lexicographic order on the key tuple. -/
def keyLe (p q : ℕ × ℕ) : Prop := p.1 < q.1 ∨ (p.1 = q.1 ∧ p.2 ≤ q.2)

instance (p q : ℕ × ℕ) : Decidable (keyLe p q) := by
  unfold keyLe
  infer_instance

/-- Python min over a nonempty sequence with a key function: keep the
current element unless a later one has a strictly smaller key, so the
first element attaining the minimum wins. -/
def minByKey (key : ℕ → ℕ × ℕ) (x : ℕ) (l : List ℕ) : ℕ :=
  l.foldl (fun best h => if keyLt (key h) (key best) then h else best) x

/-- Helper record at an index (total, with a default never reached on
the indices the engine produces). -/
def lookupHelper (s : EngineState) (i : ℕ) : HelperState :=
  (s.helpers.get? i).getD default

/-- The Python key lambda of the conflict resolution of
Engine.run_turn line 188: (len(h.flock), h.id), read from the live
helper record at resolution time. -/
def obtainKey (s : EngineState) (i : ℕ) : ℕ × ℕ :=
  ((lookupHelper s i).flock.card, (lookupHelper s i).id)

/-- Winning requester of one contested animal (the min of
core/engine.py line 188 over the requester indices). -/
def obtainWinner (s : EngineState) (l : List ℕ) : ℕ :=
  match l with
  | [] => 0
  | r :: rest => minByKey (obtainKey s) r rest

/-- One iteration of the conflict resolution loop of Engine.run_turn
(core/engine.py lines 187-194): the winner takes the animal out of its
current cell into its flock; every other requester is left untouched
and no error is raised. -/
def resolveOne (s : EngineState) (a : ℕ) (l : List ℕ) : EngineState :=
  match l with
  | [] => s
  | _ :: _ =>
    let w := obtainWinner s l
    let wh := lookupHelper s w
    let cx := pyInt wh.x
    let cy := pyInt wh.y
    { s with
        helpers := s.helpers.set w { wh with flock := insert a wh.flock }
        grid := fun p => if p = (cx, cy) then (s.grid (cx, cy)).erase a else s.grid p }

/-- The full conflict resolution loop over the batched requests. -/
def resolveObtains (s : EngineState) (ob : List (ℕ × List ℕ)) : EngineState :=
  ob.foldl (fun st e => resolveOne st e.1 e.2) s

/-- Action phase followed by conflict resolution: the state mutation of
one turn of Engine.run_turn, the stochastic animal dispersal excepted. -/
def runActions (maxDist : ℚ) (X Y arkX arkY : ℤ) (s : EngineState)
    (acts : List (Option ActionC)) : Except String EngineState :=
  (actionPhase maxDist X Y arkX arkY s acts).map
    (fun r => resolveObtains r.1 r.2)

/-- The observation-byte check of Engine.run_turn (core/engine.py lines
101-104): a value outside 0 <= m < ONE_BYTE raises; an in-range value
is recorded and broadcast to every neighbor unmodified. -/
def collectObservation (m : ℤ) : Except String ℤ :=
  if 0 ≤ m ∧ m < ONE_BYTE then Except.ok m
  else Except.error "helper gave incorrect message"

/-- The fallback the claim describes, written from the words of the
spec for comparison with collectObservation: mask the returned value
with bitwise AND 0xFF, which on integers is reduction mod 256. -/
def specMaskedByte (m : ℤ) : ℤ := m % 256

/-- Engine.get_results (core/engine.py lines 211-216): zero unless
every helper — Noah included — passes the Player.is_in_ark test on its
strategy-maintained position; otherwise the ark score.  The arena map
data gives each delivered handle its species and gender. -/
def getResults (arkX arkY : ℤ) (statsKeys : List ℤ) (data : ℕ → AnimalVal)
    (s : EngineState) : ℕ :=
  if s.helpers.all (fun h => isInArkPos h.playerX h.playerY arkX arkY) then
    getScore statsKeys ((s.arkAnimals.sort (· ≤ ·)).map data)
  else 0

/-- Flock contents of the helpers of a state, for frame conditions. -/
def flocksOf (s : EngineState) : List (Finset ℕ) :=
  s.helpers.map (fun h => h.flock)

/-- Reachable engine states.  The init constructor captures the setup
of runner.py (every flock starts empty); the turn constructor is the
validated action application and conflict resolution of one turn; the
disperse constructor over-approximates the stochastic free-animal
dispersal of Engine.run_turn lines 196-205, which relocates free
animals between cells and touches neither helpers nor ark, by exactly
those frame conditions. -/
inductive Reach : EngineState → Prop where
  | init : ∀ s : EngineState, (∀ h ∈ s.helpers, h.flock = ∅) → Reach s
  | turn : ∀ (s sNext : EngineState) (maxDist : ℚ) (X Y arkX arkY : ℤ)
      (acts : List (Option ActionC)), Reach s →
      runActions maxDist X Y arkX arkY s acts = Except.ok sNext → Reach sNext
  | disperse : ∀ s sNext : EngineState, Reach s →
      sNext.helpers = s.helpers → sNext.arkAnimals = s.arkAnimals → Reach sNext

/-- The flock capacity invariant: no helper carries more than
MAX_FLOCK_SIZE animals. -/
def FlockCap (s : EngineState) : Prop :=
  ∀ h ∈ s.helpers, h.flock.card ≤ MAX_FLOCK_SIZE

/-- Invariant the action phase maintains over the batched Obtain
requests: the request keys are distinct animals, no helper index
appears twice across the batch, every index lies below the processing
cursor, and every requester was validated to have spare capacity. -/
def ObInv (s : EngineState) (ob : List (ℕ × List ℕ)) (n : ℕ) : Prop :=
  (ob.map (fun e => e.1)).Nodup ∧
  (ob.flatMap (fun e => e.2)).Nodup ∧
  (∀ e ∈ ob, ∀ i ∈ e.2, i < n ∧ (lookupHelper s i).flock.card < MAX_FLOCK_SIZE)

/-! ## Concrete fixtures used by witnesses and counterexamples -/

/-- Fixture grid: every cell carries one free male animal of species 0
and one occupying helper shepherding a female animal of species 1. -/
def fixtureGrid : ℤ × ℤ → CellC := fun p =>
  { x := p.1
    y := p.2
    animals := [{ species_id := 0, gender := Gender.Male }]
    helpers := [{ id := 2, kind := Kind.Helper,
                  flock := [{ species_id := 1, gender := Gender.Female }] }] }

/-- Fixture state for C6: one mobile helper whose engine position and
strategy-maintained position both sit exactly on the ark cell (0, 0),
carrying a nonempty flock. -/
def s6 : EngineState :=
  { helpers := [{ id := 1, kind := Kind.Helper, x := 0, y := 0,
                  playerX := 0, playerY := 0, flock := {5} }]
    grid := fun _ => ∅
    arkAnimals := ∅ }

/-- Fixture state for C7: Noah and one mobile helper, both with engine
position exactly on the ark cell (0, 0); the mobile helper has a stale
strategy-maintained position (50, 0); the ark holds both genders of
species 0 as handles 0 and 1. -/
def s7 : EngineState :=
  { helpers :=
      [{ id := 0, kind := Kind.Noah, x := 0, y := 0,
         playerX := 0, playerY := 0, flock := ∅ },
       { id := 1, kind := Kind.Helper, x := 0, y := 0,
         playerX := 50, playerY := 0, flock := ∅ }]
    grid := fun _ => ∅
    arkAnimals := {0, 1} }

/-- Arena data for C7: handle 0 is the male and every other handle the
female of species 0. -/
def data7 : ℕ → AnimalVal := fun n =>
  if n = 0 then { species_id := 0, gender := Gender.Male }
  else { species_id := 0, gender := Gender.Female }

/-- Fixture state for the C1 witness, realizing the worked example of
spec section 8: the helper at index 0 has id 5 and one carried animal,
the helper at index 1 has id 3 and two carried animals; both request
animal 42, which sits in their shared cell. -/
def s1w : EngineState :=
  { helpers :=
      [{ id := 5, kind := Kind.Helper, x := 2, y := 3,
         playerX := 2, playerY := 3, flock := {9} },
       { id := 3, kind := Kind.Helper, x := 2, y := 3,
         playerX := 2, playerY := 3, flock := {7, 8} }]
    grid := fun p => if p = (2, 3) then {42} else ∅
    arkAnimals := ∅ }

/-- Fixture initial state for the C9 witness: Noah and one mobile
helper, both flocks empty. -/
def s9start : EngineState :=
  { helpers :=
      [{ id := 0, kind := Kind.Noah, x := 0, y := 0,
         playerX := 0, playerY := 0, flock := ∅ },
       { id := 1, kind := Kind.Helper, x := 4, y := 4,
         playerX := 4, playerY := 4, flock := ∅ }]
    grid := fun p => if p = (4, 4) then {7} else ∅
    arkAnimals := ∅ }

/-! ## Theorems -/

/-- Python int() truncation agrees with the floor function on
nonnegative rationals. -/
theorem pyInt_eq_floor (q : ℚ) (h : 0 ≤ q) : pyInt q = ⌊q⌋ := by
  simp [pyInt, h]

/-- C3: the claim states that a cell is in sight exactly when its
distance under the asymmetric per-axis rule (with third branch
observer - cell - 1) is at most the sight radius.  At observer position
(5.5, 0.0) on a 1000 x 1000 grid, the cell (1, 4) has squared rule
distance 3.5 ^ 2 + 4 ^ 2 = 28.25 > 25, so the claim excludes it, yet
cell_is_in_sight includes it: the guard of the middle branch of the
source, x - observer <= 1, always holds once observer >= x, so the
westward axis distance collapses to 0 and the third branch is dead
code.  This refutes the claim as stated and witnesses the divergence of
the code from the rule its own dead branch intended. -/
theorem c3_sight_rule_failing_input :
    cellIsInSight (11 / 2) 0 1000 1000 1 4 = true ∧
    specDistSq (11 / 2) 0 1 4 > ((MAX_SIGHT_KM : ℚ)) ^ 2 := by
  constructor
  · norm_num [cellIsInSight, sightWest, sightEast, sightNorth, sightSouth,
      axisDist, pyInt, MAX_SIGHT_KM]
  · norm_num [specDistSq, specAxisDist, MAX_SIGHT_KM]

/-- C5 counterexample: the claim states that an out-of-range
observation byte is masked with bitwise AND 0xFF and broadcast rather
than aborting the run.  At the concrete return value 300 the engine
raises a fatal error, and in particular does not produce the masked
byte 44 the claim calls for. -/
theorem c5_out_of_range_byte_counterexample :
    collectObservation 300 = Except.error "helper gave incorrect message" ∧
    specMaskedByte 300 = 44 ∧
    collectObservation 300 ≠ Except.ok (specMaskedByte 300) := by
  have h1 : collectObservation 300 = Except.error "helper gave incorrect message" := by
    norm_num [collectObservation, ONE_BYTE]
  exact ⟨h1, by decide, by rw [h1]; exact fun hcontra => Except.noConfusion hcontra⟩

/-- C5 amended: a returned observation value in 0..255 is accepted and
broadcast unmodified; any other value raises a fatal error aborting the
run — no masking fallback exists in this version of the engine. -/
theorem c5_amended_fatal_on_out_of_range (m : ℤ) :
    (0 ≤ m ∧ m < ONE_BYTE → collectObservation m = Except.ok m) ∧
    (¬(0 ≤ m ∧ m < ONE_BYTE) →
      collectObservation m = Except.error "helper gave incorrect message") := by
  constructor <;> intro h <;> simp [collectObservation, h]

/-- Witness for the amended C5 theorem at the in-range byte 7 and the
out-of-range value 300. -/
theorem c5_amended_fatal_on_out_of_range_witness :
    collectObservation 7 = Except.ok 7 ∧
    collectObservation 300 = Except.error "helper gave incorrect message" :=
  ⟨(c5_amended_fatal_on_out_of_range 7).1 (by norm_num [ONE_BYTE]),
   (c5_amended_fatal_on_out_of_range 300).2 (by norm_num [ONE_BYTE])⟩

/-- C10: the CellView built by Cell.get_view contains exactly the
renderings of the free animals of the cell together with the renderings
of every animal carried by every helper occupying the cell, all under
the same gender-redaction flag and merged into one collection in which
free and shepherded animals are indistinguishable. -/
theorem c10_cellview_merges_flocks (c : CellC) (mu : Bool) :
    ∀ a : AnimalVal, a ∈ (getView c mu).animals ↔
      ((∃ b ∈ c.animals, a = copyAnimal mu b) ∨
        (∃ h ∈ c.helpers, ∃ b ∈ h.flock, a = copyAnimal mu b)) := by
  intro a
  simp only [getView, List.mem_append, List.mem_map, List.mem_flatMap]
  constructor
  · rintro (⟨b, hb, rfl⟩ | ⟨h, hh, b, hb, rfl⟩)
    · exact Or.inl ⟨b, hb, rfl⟩
    · exact Or.inr ⟨h, hh, b, hb, rfl⟩
  · rintro (⟨b, hb, rfl⟩ | ⟨h, hh, b, hb, rfl⟩)
    · exact Or.inl ⟨b, hb, rfl⟩
    · exact Or.inr ⟨h, hh, ⟨b, hb, rfl⟩⟩

/-- Rendering an animal without redaction is the identity. -/
theorem copyAnimal_false : copyAnimal false = id := by
  funext a
  simp [copyAnimal]

/-- C2: for every observer position and every cell of the sight of the
observer, the CellView reports gender Unknown for every animal when the
cell is not the occupied cell of the observer (the floor of its
coordinates, which on the nonnegative grid agrees with the int()
truncation the source applies), and reports the ground-truth genders —
the view list is the unmodified ground truth — when it is. -/
theorem c2_gender_redaction (grid : ℤ × ℤ → CellC) (px py : ℚ) (X Y tx ty : ℤ)
    (hpx : 0 ≤ px) (hpy : 0 ≤ py)
    (hsight : cellIsInSight px py X Y tx ty = true) :
    ((⌊px⌋, ⌊py⌋) ≠ (tx, ty) →
      ∀ a ∈ (createCellViewAt grid tx ty (pyInt px) (pyInt py)).animals,
        a.gender = Gender.Unknown) ∧
    ((⌊px⌋, ⌊py⌋) = (tx, ty) →
      (createCellViewAt grid tx ty (pyInt px) (pyInt py)).animals =
        (grid (tx, ty)).animals ++ (grid (tx, ty)).helpers.flatMap (fun h => h.flock)) := by
  rw [pyInt_eq_floor px hpx, pyInt_eq_floor py hpy]
  constructor
  · intro hne a ha
    have hne2 : ¬(⌊px⌋ = tx ∧ ⌊py⌋ = ty) := by
      intro hand
      exact hne (by rw [hand.1, hand.2])
    have hflag : (!(⌊px⌋ == tx && ⌊py⌋ == ty)) = true := by
      by_cases h1 : ⌊px⌋ = tx
      · by_cases h2 : ⌊py⌋ = ty
        · exact absurd ⟨h1, h2⟩ hne2
        · simp [h1, h2]
      · simp [h1]
    simp only [createCellViewAt, hflag] at ha
    simp only [getView, List.mem_append, List.mem_map, List.mem_flatMap] at ha
    rcases ha with ⟨b, _, rfl⟩ | ⟨h, _, b, _, rfl⟩ <;> simp [copyAnimal]
  · intro heq
    have h1 : ⌊px⌋ = tx := congrArg Prod.fst heq
    have h2 : ⌊py⌋ = ty := congrArg Prod.snd heq
    have hflag : (!(⌊px⌋ == tx && ⌊py⌋ == ty)) = false := by simp [h1, h2]
    simp only [createCellViewAt, hflag]
    simp [getView, copyAnimal_false]

/-- Witness for C2 at observer position (1.5, 0.0) on a 1000 x 1000
grid viewing the in-sight cell (5, 0), which the observer does not
occupy: every reported gender is Unknown. -/
theorem c2_gender_redaction_witness :
    (0 : ℚ) ≤ 3 / 2 ∧ (0 : ℚ) ≤ 0 ∧
    cellIsInSight (3 / 2) 0 1000 1000 5 0 = true ∧
    (((⌊(3 / 2 : ℚ)⌋, ⌊(0 : ℚ)⌋) ≠ ((5 : ℤ), (0 : ℤ)) →
      ∀ a ∈ (createCellViewAt fixtureGrid 5 0 (pyInt (3 / 2)) (pyInt 0)).animals,
        a.gender = Gender.Unknown) ∧
     ((⌊(3 / 2 : ℚ)⌋, ⌊(0 : ℚ)⌋) = ((5 : ℤ), (0 : ℤ)) →
      (createCellViewAt fixtureGrid 5 0 (pyInt (3 / 2)) (pyInt 0)).animals =
        (fixtureGrid (5, 0)).animals ++
          (fixtureGrid (5, 0)).helpers.flatMap (fun h => h.flock))) :=
  ⟨by norm_num, le_refl 0,
   by norm_num [cellIsInSight, sightWest, sightEast, sightNorth, sightSouth,
        axisDist, pyInt, MAX_SIGHT_KM],
   c2_gender_redaction fixtureGrid (3 / 2) 0 1000 1000 5 0 (by norm_num) (le_refl 0)
     (by norm_num [cellIsInSight, sightWest, sightEast, sightNorth, sightSouth,
        axisDist, pyInt, MAX_SIGHT_KM])⟩

/-- The pass of get_species over the animals turns each initial flag
pair into its disjunction with the gender-presence bits of the species. -/
theorem foldl_speciesStep (animals : List AnimalVal) (m : List (ℤ × Bool × Bool)) :
    animals.foldl speciesStep m =
      m.map (fun e => (e.1, e.2.1 || hasGender animals e.1 Gender.Male,
                            e.2.2 || hasGender animals e.1 Gender.Female)) := by
  induction animals generalizing m with
  | nil =>
    simp only [List.foldl_nil, hasGender, List.any_nil, Bool.or_false]
    have hid : (fun e : ℤ × Bool × Bool => (e.1, e.2.1, e.2.2)) = id := funext fun e => rfl
    rw [hid, List.map_id]
  | cons a as ih =>
    rw [List.foldl_cons, ih, speciesStep, List.map_map]
    refine List.map_congr_left fun e _ => ?_
    by_cases hsid : e.1 = a.species_id
    · have hdec : decide (a.species_id = e.1) = true := by simp [hsid]
      simp [Function.comp, hsid, hasGender, hdec, Bool.or_assoc]
    · have hdec : decide (a.species_id = e.1) = false := by
        simp only [decide_eq_false_iff_not]
        exact fun hcontra => hsid hcontra.symm
      simp [Function.comp, hsid, hasGender, hdec]

/-- The accumulation loop of get_score adds the per-species credit of
every flag pair. -/
theorem getScore_foldl (l : List (ℤ × Bool × Bool)) (n : ℕ) :
    l.foldl (fun s e =>
        if e.2.1 && e.2.2 then s + SCORE_FOR_BOTH_GENDERS_SAVED
        else if e.2.1 || e.2.2 then s + SCORE_FOR_EITHER_GENDER_SAVED
        else s) n =
      n + (l.map (fun e => speciesCredit e.2.1 e.2.2)).sum := by
  induction l generalizing n with
  | nil => simp
  | cons e l ih =>
    rw [List.foldl_cons, ih, List.map_cons, List.sum_cons]
    rcases e with ⟨sid, m, f⟩
    cases m <;> cases f <;> simp [speciesCredit, Nat.add_assoc]

/-- C8: the ark score is a pure function of presence: it is the sum,
over the species of the static table, of full credit when both genders
of the species are present among the delivered animals, half credit
when exactly one is, and zero when none is — no additional credit for
quantities.  The hypothesis reflects the well-formedness the source
presumes: an animal of a species outside the table would raise a
KeyError in get_species. -/
theorem c8_ark_score_characterization (statsKeys : List ℤ) (animals : List AnimalVal)
    (hmem : ∀ a ∈ animals, a.species_id ∈ statsKeys) :
    getScore statsKeys animals =
      (statsKeys.map (fun sid =>
        speciesCredit (hasGender animals sid Gender.Male)
          (hasGender animals sid Gender.Female))).sum := by
  unfold getScore getSpecies
  rw [foldl_speciesStep, getScore_foldl]
  simp only [List.map_map, Nat.zero_add]
  refine congrArg List.sum (List.map_congr_left fun sid _ => ?_)
  simp [Function.comp, speciesCredit]

/-- Witness for C8: two species, species 0 delivered with both genders
and species 1 with only the female, scoring 2 + 1. -/
theorem c8_ark_score_characterization_witness :
    (∀ a ∈ ([{ species_id := 0, gender := Gender.Male },
             { species_id := 0, gender := Gender.Female },
             { species_id := 1, gender := Gender.Female }] : List AnimalVal),
      a.species_id ∈ ([0, 1] : List ℤ)) ∧
    getScore [0, 1]
        [{ species_id := 0, gender := Gender.Male },
         { species_id := 0, gender := Gender.Female },
         { species_id := 1, gender := Gender.Female }] =
      (([0, 1] : List ℤ).map (fun sid =>
        speciesCredit
          (hasGender
            [{ species_id := 0, gender := Gender.Male },
             { species_id := 0, gender := Gender.Female },
             { species_id := 1, gender := Gender.Female }] sid Gender.Male)
          (hasGender
            [{ species_id := 0, gender := Gender.Male },
             { species_id := 0, gender := Gender.Female },
             { species_id := 1, gender := Gender.Female }] sid Gender.Female))).sum :=
  ⟨by decide,
   c8_ark_score_characterization [0, 1]
     [{ species_id := 0, gender := Gender.Male },
      { species_id := 0, gender := Gender.Female },
      { species_id := 1, gender := Gender.Female }] (by decide)⟩

/-- C6 counterexample: the helper of s6 occupies the ark cell — its
cell coordinates equal the ark cell, and even the EPS in-ark test
passes on both its position records — and carries a nonempty flock, yet
a turn in which it submits no action leaves the world unchanged: the
flock stays full and the ark stays empty.  Absorption therefore does
not happen on every turn spent occupying the ark cell. -/
theorem c6_no_unload_without_move_counterexample :
    (pyInt (0 : ℚ), pyInt (0 : ℚ)) = ((0 : ℤ), (0 : ℤ)) ∧
    isInArkPos 0 0 0 0 = true ∧
    (∀ h ∈ s6.helpers, h.flock = {5}) ∧
    runActions 2 1000 1000 0 0 s6 [none] = Except.ok s6 ∧
    s6.arkAnimals = ∅ := by
  refine ⟨by norm_num [pyInt], by norm_num [isInArkPos, EPS], ?_, rfl, rfl⟩
  intro h hm
  simp only [s6, List.mem_singleton] at hm
  rw [hm]

/-- C6 amended: the flock of a helper is unloaded into the ark exactly
when the helper submits a legal Move action and the Player.is_in_ark
test — taken on the strategy-maintained Player position, which the move
does not update — passes; a helper occupying the ark that submits no
action is left untouched, and a legal Move whose in-ark test fails only
updates the engine position. -/
theorem c6_amended_unload_on_move_only (maxDist : ℚ) (X Y arkX arkY : ℤ)
    (s : EngineState) (ob : List (ℕ × List ℕ)) (i : ℕ) (hi : HelperState)
    (hget : s.helpers.get? i = some hi) :
    applyOne maxDist X Y arkX arkY s ob i none = Except.ok (s, ob) ∧
    (∀ x y : ℚ, canMoveTo maxDist X Y hi.kind hi.playerX hi.playerY x y = true →
      isInArkPos hi.playerX hi.playerY arkX arkY = true →
      applyOne maxDist X Y arkX arkY s ob i (some (ActionC.move x y)) =
        Except.ok
          ({ s with
              helpers := s.helpers.set i { hi with x := x, y := y, flock := ∅ }
              arkAnimals := s.arkAnimals ∪ hi.flock }, ob)) ∧
    (∀ x y : ℚ, canMoveTo maxDist X Y hi.kind hi.playerX hi.playerY x y = true →
      isInArkPos hi.playerX hi.playerY arkX arkY = false →
      applyOne maxDist X Y arkX arkY s ob i (some (ActionC.move x y)) =
        Except.ok ({ s with helpers := s.helpers.set i { hi with x := x, y := y } }, ob)) := by
  have hkind : ∀ x y : ℚ,
      canMoveTo maxDist X Y hi.kind hi.playerX hi.playerY x y = true →
      ¬hi.kind = Kind.Noah := by
    intro x y hc hn
    rw [canMoveTo, if_pos hn] at hc
    exact Bool.false_ne_true hc
  have hget2 : s.helpers[i]? = some hi := by
    rw [← List.get?_eq_getElem?]
    exact hget
  refine ⟨?_, ?_, ?_⟩
  · simp [applyOne, hget2]
  · intro x y hc hark
    simp [applyOne, hget2, hkind x y hc, hc, hark]
  · intro x y hc hark
    simp [applyOne, hget2, hkind x y hc, hc, hark]

/-- Witness for the amended C6 theorem: the helper of s6 performs a
legal zero-length Move while on the ark, and its flock is unloaded. -/
theorem c6_amended_unload_on_move_only_witness :
    canMoveTo 2 1000 1000 Kind.Helper 0 0 0 0 = true ∧
    isInArkPos 0 0 0 0 = true ∧
    applyOne 2 1000 1000 0 0 s6 [] 0 (some (ActionC.move 0 0)) =
      Except.ok
        ({ s6 with
            helpers := s6.helpers.set 0
              { id := 1, kind := Kind.Helper, x := 0, y := 0,
                playerX := 0, playerY := 0, flock := ∅ }
            arkAnimals := s6.arkAnimals ∪ {5} }, []) := by
  have hget : s6.helpers.get? 0 = some
      { id := 1, kind := Kind.Helper, x := 0, y := 0,
        playerX := 0, playerY := 0, flock := {5} } := rfl
  have hc : canMoveTo 2 1000 1000 Kind.Helper 0 0 0 0 = true := by
    rw [canMoveTo, if_neg (fun hcontra => Kind.noConfusion hcontra)]
    norm_num
  have hark : isInArkPos 0 0 0 0 = true := by norm_num [isInArkPos, EPS]
  exact ⟨hc, hark,
    (c6_amended_unload_on_move_only 2 1000 1000 0 0 s6 [] 0 _ hget).2.1 0 0 hc hark⟩

/-- C7 counterexample: in the terminal state s7 every helper — Noah and
the one mobile helper — is physically at the ark (engine positions all
equal the ark cell), and the ark contents score full credit for species
0, yet get_results returns 0: the check reads the strategy-maintained
Player position of the mobile helper, which is stale at (50, 0).  The
score is therefore not determined by physical presence alone. -/
theorem c7_player_position_counterexample :
    (∀ h ∈ s7.helpers, isInArkPos h.x h.y 0 0 = true) ∧
    getScore [0] ((s7.arkAnimals.sort (· ≤ ·)).map data7) =
      SCORE_FOR_BOTH_GENDERS_SAVED ∧
    getResults 0 0 [0] data7 s7 = 0 := by
  refine ⟨?_, ?_, ?_⟩
  · intro h hm
    simp only [s7, List.mem_cons, List.mem_singleton] at hm
    rcases hm with rfl | rfl | hfalse
    · norm_num [isInArkPos, EPS]
    · norm_num [isInArkPos, EPS]
    · exact absurd hfalse (List.not_mem_nil h)
  · have hsort : (s7.arkAnimals.sort (· ≤ ·)) = [0, 1] := by
      show Finset.sort (· ≤ ·) {0, 1} = [0, 1]
      simp [Finset.sort_insert, Finset.sort_singleton]
    rw [hsort]
    decide
  · norm_num [getResults, s7, isInArkPos, EPS]

/-- C7 amended: get_results returns 0 whenever some helper — Noah
included — fails the Player.is_in_ark test on its strategy-maintained
position, and returns the ark diversity score when every helper passes
it.  This coincides with the physical all-docked rule of the claim only
for helpers whose strategies keep Player.position equal to the
engine-tracked position. -/
theorem c7_amended_docked_rule (arkX arkY : ℤ) (statsKeys : List ℤ)
    (data : ℕ → AnimalVal) (s : EngineState) :
    ((∃ h ∈ s.helpers, isInArkPos h.playerX h.playerY arkX arkY = false) →
      getResults arkX arkY statsKeys data s = 0) ∧
    ((∀ h ∈ s.helpers, isInArkPos h.playerX h.playerY arkX arkY = true) →
      getResults arkX arkY statsKeys data s =
        getScore statsKeys ((s.arkAnimals.sort (· ≤ ·)).map data)) := by
  constructor
  · rintro ⟨h, hm, hf⟩
    have hall : s.helpers.all
        (fun hh => isInArkPos hh.playerX hh.playerY arkX arkY) = false := by
      rw [List.all_eq_false]
      exact ⟨h, hm, by simp [hf]⟩
    simp [getResults, hall]
  · intro hall
    have htrue : s.helpers.all
        (fun hh => isInArkPos hh.playerX hh.playerY arkX arkY) = true := by
      rw [List.all_eq_true]
      exact hall
    simp [getResults, htrue]

/-- Witness for the amended C7 theorem: the mobile helper of s7 fails
the Player-position test, so the returned score is 0. -/
theorem c7_amended_docked_rule_witness :
    (∃ h ∈ s7.helpers, isInArkPos h.playerX h.playerY 0 0 = false) ∧
    getResults 0 0 [0] data7 s7 = 0 := by
  have hex : ∃ h ∈ s7.helpers, isInArkPos h.playerX h.playerY 0 0 = false := by
    refine ⟨{ id := 1, kind := Kind.Helper, x := 0, y := 0,
              playerX := 50, playerY := 0, flock := ∅ }, ?_, ?_⟩
    · simp [s7]
    · norm_num [isInArkPos, EPS]
  exact ⟨hex, (c7_amended_docked_rule 0 0 [0] data7 s7).1 hex⟩

/-- The strict comparison used by the fold is the negation of the weak
lexicographic order in the other direction. -/
theorem keyLt_eq_true_iff_not_keyLe (p q : ℕ × ℕ) :
    keyLt p q = true ↔ ¬keyLe q p := by
  simp only [keyLt, keyLe, Bool.or_eq_true, Bool.and_eq_true, decide_eq_true_eq]
  constructor
  · rintro (h | ⟨he, h⟩) (hc | ⟨hca, hcb⟩)
    · exact absurd hc (Nat.lt_asymm h)
    · exact absurd h (by rw [hca]; exact Nat.lt_irrefl p.1)
    · exact absurd hc (by rw [he]; exact Nat.lt_irrefl q.1)
    · exact absurd hcb (Nat.not_le_of_lt h)
  · intro hn
    rcases Nat.lt_trichotomy p.1 q.1 with h | h | h
    · exact Or.inl h
    · rcases Nat.lt_or_ge p.2 q.2 with h2 | h2
      · exact Or.inr ⟨h, h2⟩
      · exact absurd (Or.inr ⟨h.symm, h2⟩) hn
    · exact absurd (Or.inl h) hn

/-- The weak lexicographic order is reflexive. -/
theorem keyLe_refl (p : ℕ × ℕ) : keyLe p p := Or.inr ⟨rfl, Nat.le_refl _⟩

/-- The weak lexicographic order is transitive. -/
theorem keyLe_trans {p q r : ℕ × ℕ} (h1 : keyLe p q) (h2 : keyLe q r) : keyLe p r := by
  rcases h1 with h1 | ⟨h1a, h1b⟩ <;> rcases h2 with h2 | ⟨h2a, h2b⟩
  · exact Or.inl (Nat.lt_trans h1 h2)
  · exact Or.inl (h2a ▸ h1)
  · exact Or.inl (h1a ▸ h2)
  · exact Or.inr ⟨h1a.trans h2a, Nat.le_trans h1b h2b⟩

/-- The weak lexicographic order is antisymmetric. -/
theorem keyLe_antisymm {p q : ℕ × ℕ} (h1 : keyLe p q) (h2 : keyLe q p) : p = q := by
  rcases h1 with h1 | ⟨h1a, h1b⟩ <;> rcases h2 with h2 | ⟨h2a, h2b⟩
  · exact absurd h2 (Nat.lt_asymm h1)
  · exact absurd h1 (by rw [h2a]; exact Nat.lt_irrefl p.1)
  · exact absurd h2 (by rw [h1a]; exact Nat.lt_irrefl q.1)
  · exact Prod.ext h1a (Nat.le_antisymm h1b h2b)

/-- The weak order follows from the strict comparison. -/
theorem keyLe_of_keyLt {p q : ℕ × ℕ} (h : keyLt p q = true) : keyLe p q := by
  rw [keyLt_eq_true_iff_not_keyLe] at h
  rcases Nat.lt_trichotomy p.1 q.1 with h1 | h1 | h1
  · exact Or.inl h1
  · rcases Nat.lt_or_ge p.2 q.2 with h2 | h2
    · exact Or.inr ⟨h1, Nat.le_of_lt h2⟩
    · exact absurd (Or.inr ⟨h1.symm, h2⟩) h
  · exact absurd (Or.inl h1) h

/-- A failed strict comparison yields the weak order backwards. -/
theorem keyLe_of_not_keyLt {p q : ℕ × ℕ} (h : keyLt p q = false) : keyLe q p := by
  by_contra hc
  rw [← keyLt_eq_true_iff_not_keyLe] at hc
  rw [h] at hc
  exact Bool.false_ne_true hc

/-- Unfolding of the Python min fold over a cons cell. -/
theorem minByKey_cons (key : ℕ → ℕ × ℕ) (x h : ℕ) (t : List ℕ) :
    minByKey key x (h :: t) =
      minByKey key (if keyLt (key h) (key x) then h else x) t := rfl

/-- The Python min returns the start element or a list element. -/
theorem minByKey_mem (key : ℕ → ℕ × ℕ) (l : List ℕ) :
    ∀ x : ℕ, minByKey key x l = x ∨ minByKey key x l ∈ l := by
  induction l with
  | nil => exact fun x => Or.inl rfl
  | cons h t ih =>
    intro x
    rw [minByKey_cons]
    by_cases hc : keyLt (key h) (key x) = true
    · rw [if_pos hc]
      rcases ih h with h1 | h1
      · exact Or.inr (by rw [h1]; exact List.mem_cons_self h t)
      · exact Or.inr (List.mem_cons_of_mem h h1)
    · rw [if_neg hc]
      rcases ih x with h1 | h1
      · exact Or.inl h1
      · exact Or.inr (List.mem_cons_of_mem h h1)

/-- The Python min result has a key below the start key and every list
key. -/
theorem minByKey_min (key : ℕ → ℕ × ℕ) (l : List ℕ) :
    ∀ x : ℕ, keyLe (key (minByKey key x l)) (key x) ∧
      ∀ h ∈ l, keyLe (key (minByKey key x l)) (key h) := by
  induction l with
  | nil => exact fun x => ⟨keyLe_refl _, fun h hm => absurd hm (List.not_mem_nil h)⟩
  | cons h t ih =>
    intro x
    rw [minByKey_cons]
    by_cases hc : keyLt (key h) (key x) = true
    · rw [if_pos hc]
      obtain ⟨ih1, ih2⟩ := ih h
      refine ⟨keyLe_trans ih1 (keyLe_of_keyLt hc), fun g hg => ?_⟩
      rcases List.mem_cons.mp hg with rfl | hg2
      · exact ih1
      · exact ih2 g hg2
    · rw [if_neg hc]
      obtain ⟨ih1, ih2⟩ := ih x
      have hxh : keyLe (key x) (key h) :=
        keyLe_of_not_keyLt (Bool.eq_false_iff.mpr hc)
      refine ⟨ih1, fun g hg => ?_⟩
      rcases List.mem_cons.mp hg with rfl | hg2
      · exact keyLe_trans ih1 hxh
      · exact ih2 g hg2

/-- With keys injective on the candidates, the Python min is the unique
minimum. -/
theorem minByKey_eq_of_min (key : ℕ → ℕ × ℕ) (x : ℕ) (l : List ℕ) (w : ℕ)
    (hw : w = x ∨ w ∈ l)
    (hminx : keyLe (key w) (key x)) (hminl : ∀ h ∈ l, keyLe (key w) (key h))
    (hinj : ∀ i, (i = x ∨ i ∈ l) → ∀ j, (j = x ∨ j ∈ l) → key i = key j → i = j) :
    minByKey key x l = w := by
  have hm := minByKey_mem key l x
  obtain ⟨hle1, hle2⟩ := minByKey_min key l x
  have h1 : keyLe (key (minByKey key x l)) (key w) := by
    rcases hw with rfl | hw2
    · exact hle1
    · exact hle2 w hw2
  have h2 : keyLe (key w) (key (minByKey key x l)) := by
    rcases hm with heq | hmm
    · rw [heq]; exact hminx
    · exact hminl _ hmm
  exact hinj _ hm _ hw (keyLe_antisymm h1 h2)

/-- The winner of a contested animal is one of the requesters. -/
theorem obtainWinner_mem (s : EngineState) (r : ℕ) (rest : List ℕ) :
    obtainWinner s (r :: rest) ∈ r :: rest := by
  rw [obtainWinner]
  rcases minByKey_mem (obtainKey s) rest r with h | h
  · exact by rw [h]; exact List.mem_cons_self r rest
  · exact List.mem_cons_of_mem r h

/-- The winner of a contested animal minimizes the key pair over all
requesters. -/
theorem obtainWinner_min (s : EngineState) (r : ℕ) (rest : List ℕ) :
    ∀ i ∈ r :: rest,
      keyLe (obtainKey s (obtainWinner s (r :: rest))) (obtainKey s i) := by
  intro i hi
  obtain ⟨h1, h2⟩ := minByKey_min (obtainKey s) rest r
  rcases List.mem_cons.mp hi with rfl | hi2
  · exact h1
  · exact h2 i hi2

/-- C1: for a turn in which the requesters r :: rest — helper indices
with pairwise distinct helper ids — contest one animal, the conflict
resolution of Engine.run_turn picks exactly one winner: the requester
minimizing the pair (current flock size, helper id) lexicographically.
The winner flock gains the animal and the cell of the winner loses it;
every other helper record and every other cell is unchanged, the ark is
unchanged and no error is raised (resolveOne is total); the winner does
not depend on the order in which the requests were collected. -/
theorem c1_obtain_conflict_resolution (s : EngineState) (a : ℕ)
    (r : ℕ) (rest : List ℕ)
    (hids : ∀ i ∈ r :: rest, ∀ j ∈ r :: rest,
      (lookupHelper s i).id = (lookupHelper s j).id → i = j) :
    obtainWinner s (r :: rest) ∈ r :: rest ∧
    (∀ i ∈ r :: rest,
      keyLe (obtainKey s (obtainWinner s (r :: rest))) (obtainKey s i)) ∧
    (∀ w2 ∈ r :: rest,
      (∀ i ∈ r :: rest, keyLe (obtainKey s w2) (obtainKey s i)) →
      w2 = obtainWinner s (r :: rest)) ∧
    (resolveOne s a (r :: rest)).helpers =
      s.helpers.set (obtainWinner s (r :: rest))
        { lookupHelper s (obtainWinner s (r :: rest)) with
            flock := insert a (lookupHelper s (obtainWinner s (r :: rest))).flock } ∧
    (∀ j : ℕ, j ≠ obtainWinner s (r :: rest) →
      (resolveOne s a (r :: rest)).helpers.get? j = s.helpers.get? j) ∧
    (∀ p : ℤ × ℤ, (resolveOne s a (r :: rest)).grid p =
      if p = (pyInt (lookupHelper s (obtainWinner s (r :: rest))).x,
              pyInt (lookupHelper s (obtainWinner s (r :: rest))).y)
      then (s.grid p).erase a else s.grid p) ∧
    (resolveOne s a (r :: rest)).arkAnimals = s.arkAnimals ∧
    (∀ l2 : List ℕ, (r :: rest).Perm l2 →
      obtainWinner s l2 = obtainWinner s (r :: rest)) := by
  have hkeyinj : ∀ i ∈ r :: rest, ∀ j ∈ r :: rest,
      obtainKey s i = obtainKey s j → i = j := by
    intro i hi j hj hk
    exact hids i hi j hj (congrArg Prod.snd hk)
  refine ⟨obtainWinner_mem s r rest, obtainWinner_min s r rest, ?_, ?_, ?_, ?_, ?_, ?_⟩
  · intro w2 hw2 hmin
    rw [obtainWinner]
    refine (minByKey_eq_of_min (obtainKey s) r rest w2
      (List.mem_cons.mp hw2) (hmin r (List.mem_cons_self r rest))
      (fun h hh => hmin h (List.mem_cons_of_mem r hh)) ?_).symm
    intro i hi j hj
    exact hkeyinj i (List.mem_cons.mpr hi) j (List.mem_cons.mpr hj)
  · rfl
  · intro j hj
    show (s.helpers.set (obtainWinner s (r :: rest)) _).get? j = s.helpers.get? j
    exact List.get?_set_ne _ _ (fun hcontra => hj hcontra.symm)
  · intro p
    by_cases hp : p = (pyInt (lookupHelper s (obtainWinner s (r :: rest))).x,
                       pyInt (lookupHelper s (obtainWinner s (r :: rest))).y)
    · subst hp
      simp [resolveOne]
    · simp [resolveOne, hp]
  · rfl
  · intro l2 hp
    rcases hl2 : l2 with _ | ⟨r2, rest2⟩
    · rw [hl2] at hp
      simpa using hp.length_eq
    subst hl2
    have hmem2 : ∀ i : ℕ, i ∈ r2 :: rest2 ↔ i ∈ r :: rest := fun i => (hp.mem_iff).symm
    have hw2mem : obtainWinner s (r2 :: rest2) ∈ r :: rest :=
      (hmem2 _).mp (obtainWinner_mem s r2 rest2)
    have hw2min : ∀ i ∈ r :: rest,
        keyLe (obtainKey s (obtainWinner s (r2 :: rest2))) (obtainKey s i) := by
      intro i hi
      exact obtainWinner_min s r2 rest2 i ((hmem2 i).mpr hi)
    have hw1mem := obtainWinner_mem s r rest
    have hw1min := obtainWinner_min s r rest
    exact hkeyinj _ hw2mem _ hw1mem
      (keyLe_antisymm (hw2min _ hw1mem) (hw1min _ hw2mem))

/-- Witness for C1, realizing the worked example of spec section 8:
requester index 0 (helper id 5, flock size 1) beats requester index 1
(helper id 3, flock size 2) for animal 42, irrespective of collection
order. -/
theorem c1_obtain_conflict_resolution_witness :
    (∀ i ∈ [0, 1], ∀ j ∈ [0, 1],
      (lookupHelper s1w i).id = (lookupHelper s1w j).id → i = j) ∧
    obtainWinner s1w [0, 1] = 0 ∧
    (obtainWinner s1w [0, 1] ∈ [0, 1] ∧
     (∀ i ∈ [0, 1], keyLe (obtainKey s1w (obtainWinner s1w [0, 1])) (obtainKey s1w i)) ∧
     (∀ w2 ∈ [0, 1], (∀ i ∈ [0, 1], keyLe (obtainKey s1w w2) (obtainKey s1w i)) →
       w2 = obtainWinner s1w [0, 1]) ∧
     (resolveOne s1w 42 [0, 1]).helpers =
       s1w.helpers.set (obtainWinner s1w [0, 1])
         { lookupHelper s1w (obtainWinner s1w [0, 1]) with
             flock := insert 42 (lookupHelper s1w (obtainWinner s1w [0, 1])).flock } ∧
     (∀ j : ℕ, j ≠ obtainWinner s1w [0, 1] →
       (resolveOne s1w 42 [0, 1]).helpers.get? j = s1w.helpers.get? j) ∧
     (∀ p : ℤ × ℤ, (resolveOne s1w 42 [0, 1]).grid p =
       if p = (pyInt (lookupHelper s1w (obtainWinner s1w [0, 1])).x,
               pyInt (lookupHelper s1w (obtainWinner s1w [0, 1])).y)
       then (s1w.grid p).erase 42 else s1w.grid p) ∧
     (resolveOne s1w 42 [0, 1]).arkAnimals = s1w.arkAnimals ∧
     (∀ l2 : List ℕ, ([0, 1] : List ℕ).Perm l2 →
       obtainWinner s1w l2 = obtainWinner s1w [0, 1])) := by
  have hids : ∀ i ∈ [0, 1], ∀ j ∈ [0, 1],
      (lookupHelper s1w i).id = (lookupHelper s1w j).id → i = j := by decide
  refine ⟨hids, ?_, c1_obtain_conflict_resolution s1w 42 0 [1] hids⟩
  decide

/-- Looking up a helper in a state whose helper list was updated at
another index is unchanged. -/
theorem lookupHelper_set_ne (l : List HelperState) (g : ℤ × ℤ → Finset ℕ)
    (ark : Finset ℕ) (i j : ℕ) (v : HelperState) (hne : j ≠ i) :
    lookupHelper { helpers := l.set i v, grid := g, arkAnimals := ark } j =
      (l.get? j).getD default := by
  show ((l.set i v).get? j).getD default = (l.get? j).getD default
  rw [List.get?_set_ne v l (fun hcontra => hne hcontra.symm)]

/-- A state whose helper list was updated with a record respecting the
capacity keeps the capacity invariant. -/
theorem flockCap_set (s : EngineState) (i : ℕ) (v : HelperState)
    (g : ℤ × ℤ → Finset ℕ) (ark : Finset ℕ)
    (hcap : FlockCap s) (hv : v.flock.card ≤ MAX_FLOCK_SIZE) :
    FlockCap { helpers := s.helpers.set i v, grid := g, arkAnimals := ark } := by
  intro h hm
  rcases List.mem_or_eq_of_mem_set hm with hm2 | rfl
  · exact hcap h hm2
  · exact hv

/-- addRequest either keeps the request keys or appends the animal as a
fresh key. -/
theorem addRequest_keys (ob : List (ℕ × List ℕ)) (a i : ℕ) :
    (addRequest ob a i).map (fun e => e.1) = ob.map (fun e => e.1) ∨
    ((addRequest ob a i).map (fun e => e.1) = ob.map (fun e => e.1) ++ [a] ∧
      ob.any (fun e => e.1 == a) = false) := by
  rw [addRequest]
  by_cases hany : ob.any (fun e => e.1 == a) = true
  · rw [if_pos hany]
    left
    rw [List.map_map]
    refine List.map_congr_left fun e _ => ?_
    by_cases he : e.1 = a <;> simp [he]
  · rw [if_neg hany]
    right
    exact ⟨by simp, Bool.eq_false_iff.mpr hany⟩

/-- Every requester index of the batch after addRequest is an old
requester or the new index. -/
theorem addRequest_mem (ob : List (ℕ × List ℕ)) (a i : ℕ)
    (e2 : ℕ × List ℕ) (he2 : e2 ∈ addRequest ob a i) (j : ℕ) (hj : j ∈ e2.2) :
    (∃ e ∈ ob, j ∈ e.2) ∨ j = i := by
  rw [addRequest] at he2
  by_cases hany : ob.any (fun e => e.1 == a) = true
  · rw [if_pos hany] at he2
    obtain ⟨e, he, rfl⟩ := List.mem_map.mp he2
    by_cases hk : (e.1 == a) = true
    · rw [if_pos hk] at hj
      rcases List.mem_append.mp hj with hj2 | hj2
      · exact Or.inl ⟨e, he, hj2⟩
      · exact Or.inr (List.mem_singleton.mp hj2)
    · rw [if_neg hk] at hj
      exact Or.inl ⟨e, he, hj⟩
  · rw [if_neg hany] at he2
    rcases List.mem_append.mp he2 with he3 | he3
    · exact Or.inl ⟨e2, he3, hj⟩
    · rw [List.mem_singleton.mp he3] at hj
      exact Or.inr (List.mem_singleton.mp hj)

/-- With distinct request keys, addRequest adds the new index exactly
once to the flattened requester multiset. -/
theorem addRequest_flat (ob : List (ℕ × List ℕ)) (a i : ℕ)
    (hkeys : (ob.map (fun e => e.1)).Nodup) :
    ((addRequest ob a i).flatMap (fun e => e.2)).Perm
      ((ob.flatMap (fun e => e.2)) ++ [i]) := by
  induction ob with
  | nil =>
    simp [addRequest]
  | cons e t ih =>
    rw [addRequest]
    by_cases he : (e.1 == a) = true
    · rw [if_pos (by simp only [List.any_cons, he, Bool.true_or])]
      have ha : e.1 = a := by simpa using he
      have hkeyhead : e.1 ∉ t.map (fun e => e.1) := (List.nodup_cons.mp hkeys).1
      have hmap : t.map (fun e2 => if (e2.1 == a) = true then (e2.1, e2.2 ++ [i]) else e2) = t := by
        have h1 : t.map (fun e2 => if (e2.1 == a) = true then (e2.1, e2.2 ++ [i]) else e2) =
            t.map id := by
          refine List.map_congr_left fun e2 he2 => ?_
          have hne : (e2.1 == a) = false := by
            rw [beq_eq_false_iff_ne]
            intro hcontra
            exact hkeyhead (by
              rw [ha, ← hcontra]
              exact List.mem_map_of_mem (fun e => e.1) he2)
          rw [hne]
          rfl
        rw [h1, List.map_id]
      rw [List.map_cons, if_pos he, hmap]
      simp only [List.flatMap_cons]
      rw [List.append_assoc, List.append_assoc]
      exact List.Perm.append_left _ List.perm_append_comm
    · cases hanyt : t.any (fun e2 => e2.1 == a) with
      | true =>
        rw [if_pos (by simp only [List.any_cons, hanyt, Bool.or_true])]
        have ht : addRequest t a i =
            t.map (fun e2 => if (e2.1 == a) = true then (e2.1, e2.2 ++ [i]) else e2) := by
          rw [addRequest, if_pos hanyt]
        have ihh := ih ((List.nodup_cons.mp hkeys).2)
        rw [ht] at ihh
        rw [List.map_cons, if_neg he]
        simp only [List.flatMap_cons]
        rw [List.append_assoc]
        exact List.Perm.append_left _ ihh
      | false =>
        have he2 : (e.1 == a) = false := Bool.eq_false_iff.mpr he
        have hfalse : ((e :: t).any (fun e2 => e2.1 == a)) = false := by
          simp only [List.any_cons, he2, hanyt, Bool.or_self]
        rw [if_neg (by rw [hfalse]; exact Bool.false_ne_true)]
        rw [List.flatMap_append]
        simp

/-- One validated action application preserves the flock capacity
invariant and extends the request-batch invariant past the cursor. -/
theorem applyOne_inv (maxDist : ℚ) (X Y arkX arkY : ℤ) (s s2 : EngineState)
    (ob ob2 : List (ℕ × List ℕ)) (i : ℕ) (act : Option ActionC)
    (hcap : FlockCap s) (hinv : ObInv s ob i)
    (hok : applyOne maxDist X Y arkX arkY s ob i act = Except.ok (s2, ob2)) :
    FlockCap s2 ∧ ObInv s2 ob2 (i + 1) := by
  obtain ⟨hkeys, hflat, hval⟩ := hinv
  have hvalmono : ∀ e ∈ ob, ∀ j ∈ e.2,
      j < i + 1 ∧ (lookupHelper s j).flock.card < MAX_FLOCK_SIZE :=
    fun e he j hj => ⟨Nat.lt_succ_of_lt (hval e he j hj).1, (hval e he j hj).2⟩
  have hsetinv : ∀ (v : HelperState) (g : ℤ × ℤ → Finset ℕ) (ark : Finset ℕ),
      ObInv { helpers := s.helpers.set i v, grid := g, arkAnimals := ark } ob (i + 1) := by
    intro v g ark
    refine ⟨hkeys, hflat, fun e he j hj => ⟨Nat.lt_succ_of_lt (hval e he j hj).1, ?_⟩⟩
    rw [lookupHelper_set_ne s.helpers g ark i j v (Nat.ne_of_lt (hval e he j hj).1)]
    exact (hval e he j hj).2
  cases hget0 : s.helpers.get? i with
  | none =>
    simp only [applyOne, hget0] at hok
    simp only [Except.ok.injEq, Prod.mk.injEq] at hok
    obtain ⟨rfl, rfl⟩ := hok
    exact ⟨hcap, hkeys, hflat, hvalmono⟩
  | some hi =>
    have himem : hi ∈ s.helpers := List.get?_mem hget0
    cases act with
    | none =>
      simp only [applyOne, hget0] at hok
      simp only [Except.ok.injEq, Prod.mk.injEq] at hok
      obtain ⟨rfl, rfl⟩ := hok
      exact ⟨hcap, hkeys, hflat, hvalmono⟩
    | some a =>
      by_cases hkind : hi.kind = Kind.Noah
      · simp only [applyOne, hget0] at hok
        rw [if_pos hkind] at hok
        exact Except.noConfusion hok
      · cases a with
        | release an =>
          simp only [applyOne, hget0] at hok
          rw [if_neg hkind] at hok
          by_cases hfl : an ∉ hi.flock
          · rw [if_pos hfl] at hok
            exact Except.noConfusion hok
          · rw [if_neg hfl] at hok
            simp only [Except.ok.injEq, Prod.mk.injEq] at hok
            obtain ⟨hs2, rfl⟩ := hok
            subst hs2
            constructor
            · exact flockCap_set s i _ _ _ hcap
                (le_trans Finset.card_erase_le (hcap hi himem))
            · exact hsetinv _ _ _
        | obtain an =>
          simp only [applyOne, hget0] at hok
          rw [if_neg hkind] at hok
          by_cases hfull : MAX_FLOCK_SIZE ≤ hi.flock.card
          · rw [if_pos hfull] at hok
            exact Except.noConfusion hok
          · rw [if_neg hfull] at hok
            by_cases hcell : an ∉ s.grid (pyInt hi.x, pyInt hi.y)
            · rw [if_pos hcell] at hok
              exact Except.noConfusion hok
            · rw [if_neg hcell] at hok
              simp only [Except.ok.injEq, Prod.mk.injEq] at hok
              obtain ⟨rfl, hob⟩ := hok
              subst hob
              refine ⟨hcap, ?_, ?_, ?_⟩
              · rcases addRequest_keys ob an i with hk | ⟨hk, hany⟩
                · rw [hk]
                  exact hkeys
                · rw [hk, List.nodup_append]
                  refine ⟨hkeys, List.nodup_singleton an, ?_⟩
                  intro x hx hx2
                  rw [List.mem_singleton] at hx2
                  rw [hx2] at hx
                  obtain ⟨e, he, hfst⟩ := List.mem_map.mp hx
                  have hne := List.any_eq_false.mp hany e he
                  rw [hfst] at hne
                  exact hne (beq_self_eq_true an)
              · rw [List.Perm.nodup_iff (addRequest_flat ob an i hkeys),
                  List.nodup_append]
                refine ⟨hflat, List.nodup_singleton i, ?_⟩
                intro x hx hx2
                rw [List.mem_singleton] at hx2
                rw [hx2] at hx
                obtain ⟨e, he, hje⟩ := List.mem_flatMap.mp hx
                exact Nat.lt_irrefl i (hval e he i hje).1
              · intro e2 he2 j hj
                rcases addRequest_mem ob an i e2 he2 j hj with ⟨e, he, hje⟩ | rfl
                · exact ⟨Nat.lt_succ_of_lt (hval e he j hje).1, (hval e he j hje).2⟩
                · refine ⟨Nat.lt_succ_self j, ?_⟩
                  have hlj : lookupHelper s j = hi := by
                    show ((s.helpers.get? j).getD default) = hi
                    rw [hget0]
                    rfl
                  rw [hlj]
                  exact Nat.lt_of_not_le hfull
        | move mx my =>
          simp only [applyOne, hget0] at hok
          rw [if_neg hkind] at hok
          cases hcan : canMoveTo maxDist X Y hi.kind hi.playerX hi.playerY mx my with
          | false =>
            rw [hcan] at hok
            simp only [Bool.not_false, if_true] at hok
            exact Except.noConfusion hok
          | true =>
            rw [hcan] at hok
            simp only [Bool.not_true, Bool.false_eq_true, if_false] at hok
            cases hark : isInArkPos hi.playerX hi.playerY arkX arkY with
            | true =>
              rw [hark] at hok
              simp only [if_true] at hok
              simp only [Except.ok.injEq, Prod.mk.injEq] at hok
              obtain ⟨hs2, rfl⟩ := hok
              subst hs2
              constructor
              · refine flockCap_set s i _ _ _ hcap ?_
                simp [MAX_FLOCK_SIZE]
              · exact hsetinv _ _ _
            | false =>
              rw [hark] at hok
              simp only [Bool.false_eq_true, if_false] at hok
              simp only [Except.ok.injEq, Prod.mk.injEq] at hok
              obtain ⟨hs2, rfl⟩ := hok
              subst hs2
              constructor
              · exact flockCap_set s i _ _ _ hcap (hcap hi himem)
              · exact hsetinv _ _ _

/-- The whole action loop preserves the capacity invariant and yields a
batch satisfying the request invariant. -/
theorem actionPhaseFrom_inv (maxDist : ℚ) (X Y arkX arkY : ℤ)
    (acts : List (Option ActionC)) :
    ∀ (i : ℕ) (s : EngineState) (ob : List (ℕ × List ℕ))
      (s2 : EngineState) (ob2 : List (ℕ × List ℕ)),
      FlockCap s → ObInv s ob i →
      actionPhaseFrom maxDist X Y arkX arkY i s ob acts = Except.ok (s2, ob2) →
      FlockCap s2 ∧ ObInv s2 ob2 (i + acts.length) := by
  induction acts with
  | nil =>
    intro i s ob s2 ob2 hcap hinv hok
    simp only [actionPhaseFrom, Except.ok.injEq, Prod.mk.injEq] at hok
    obtain ⟨rfl, rfl⟩ := hok
    simpa using ⟨hcap, hinv⟩
  | cons act rest ih =>
    intro i s ob s2 ob2 hcap hinv hok
    simp only [actionPhaseFrom] at hok
    cases happ : applyOne maxDist X Y arkX arkY s ob i act with
    | error e =>
      rw [happ] at hok
      exact Except.noConfusion hok
    | ok pair =>
      rw [happ] at hok
      simp only [bind, Except.bind] at hok
      obtain ⟨s3, ob3⟩ := pair
      obtain ⟨hcap3, hinv3⟩ :=
        applyOne_inv maxDist X Y arkX arkY s s3 ob ob3 i act hcap hinv happ
      have hrec := ih (i + 1) s3 ob3 s2 ob2 hcap3 hinv3 hok
      have hlen : i + 1 + rest.length = i + (act :: rest).length := by
        simp [List.length_cons]
        omega
      rw [hlen] at hrec
      exact hrec

/-- One conflict resolution step preserves capacity when every
requester has spare capacity, and leaves every helper outside the
requester list untouched. -/
theorem resolveOne_cap (s : EngineState) (a : ℕ) (l : List ℕ)
    (hcap : FlockCap s)
    (hval : ∀ i ∈ l, (lookupHelper s i).flock.card < MAX_FLOCK_SIZE) :
    FlockCap (resolveOne s a l) ∧
    (∀ j : ℕ, j ∉ l → lookupHelper (resolveOne s a l) j = lookupHelper s j) := by
  cases l with
  | nil => exact ⟨hcap, fun j _ => rfl⟩
  | cons r rest =>
    have hw := obtainWinner_mem s r rest
    constructor
    · intro h hm
      simp only [resolveOne] at hm
      rcases List.mem_or_eq_of_mem_set hm with hm2 | rfl
      · exact hcap h hm2
      · calc (insert a (lookupHelper s (obtainWinner s (r :: rest))).flock).card
            ≤ (lookupHelper s (obtainWinner s (r :: rest))).flock.card + 1 :=
              Finset.card_insert_le _ _
          _ ≤ MAX_FLOCK_SIZE := Nat.succ_le_of_lt (hval _ hw)
    · intro j hj
      have hjw : j ≠ obtainWinner s (r :: rest) := fun hc => hj (hc ▸ hw)
      show lookupHelper _ j = lookupHelper s j
      simp only [resolveOne]
      rw [lookupHelper_set_ne s.helpers _ _ (obtainWinner s (r :: rest)) j _ hjw]
      rfl

/-- The full conflict resolution loop preserves the capacity invariant
when the batch satisfies the request invariant. -/
theorem resolveObtains_cap (ob : List (ℕ × List ℕ)) :
    ∀ s : EngineState, FlockCap s →
      (ob.flatMap (fun e => e.2)).Nodup →
      (∀ e ∈ ob, ∀ i ∈ e.2, (lookupHelper s i).flock.card < MAX_FLOCK_SIZE) →
      FlockCap (resolveObtains s ob) := by
  induction ob with
  | nil =>
    intro s hcap _ _
    exact hcap
  | cons e t ih =>
    intro s hcap hnd hval
    have hnd2 : (e.2 ++ t.flatMap (fun e => e.2)).Nodup := by
      simpa [List.flatMap_cons] using hnd
    obtain ⟨hcap2, hframe⟩ :=
      resolveOne_cap s e.1 e.2 hcap (hval e (List.mem_cons_self e t))
    show FlockCap ((e :: t).foldl (fun st e2 => resolveOne st e2.1 e2.2) s)
    rw [List.foldl_cons]
    refine ih (resolveOne s e.1 e.2) hcap2 (List.Nodup.of_append_right hnd2) ?_
    intro e2 he2 j hj
    have hdisj := List.disjoint_of_nodup_append hnd2
    have hjnot : j ∉ e.2 := fun hc =>
      hdisj hc (List.mem_flatMap.mpr ⟨e2, he2, hj⟩)
    rw [hframe j hjnot]
    exact hval e2 (List.mem_cons_of_mem e he2) j hj

/-- A whole validated turn — action phase followed by conflict
resolution — preserves the flock capacity invariant. -/
theorem runActions_cap (maxDist : ℚ) (X Y arkX arkY : ℤ)
    (s s2 : EngineState) (acts : List (Option ActionC))
    (hcap : FlockCap s)
    (hok : runActions maxDist X Y arkX arkY s acts = Except.ok s2) :
    FlockCap s2 := by
  rw [runActions] at hok
  cases hphase : actionPhase maxDist X Y arkX arkY s acts with
  | error e =>
    rw [hphase] at hok
    exact Except.noConfusion hok
  | ok pair =>
    rw [hphase] at hok
    obtain ⟨s3, ob3⟩ := pair
    simp only [Except.map, Except.ok.injEq] at hok
    rw [actionPhase] at hphase
    have hinv0 : ObInv s ∅ 0 :=
      ⟨List.nodup_nil, List.nodup_nil,
       fun e he => absurd he (List.not_mem_nil e)⟩
    obtain ⟨hcap3, hinv3⟩ :=
      actionPhaseFrom_inv maxDist X Y arkX arkY acts 0 s ∅ s3 ob3 hcap hinv0 hphase
    rw [← hok]
    exact resolveObtains_cap ob3 s3 hcap3 hinv3.2.1
      (fun e he j hj => (hinv3.2.2 e he j hj).2)

/-- C9: every reachable state satisfies the flock capacity invariant —
no flock ever exceeds MAX_FLOCK_SIZE, the conflict resolution phase
included — and an Obtain action submitted by a helper whose flock is at
or above capacity makes the turn abort with a fatal error. -/
theorem c9_flock_capacity_invariant (s : EngineState) (hreach : Reach s) :
    (∀ h ∈ s.helpers, h.flock.card ≤ MAX_FLOCK_SIZE) ∧
    (∀ (maxDist : ℚ) (X Y arkX arkY : ℤ) (ob : List (ℕ × List ℕ)) (i : ℕ)
      (hi : HelperState) (an : ℕ), s.helpers.get? i = some hi →
      MAX_FLOCK_SIZE ≤ hi.flock.card →
      ∃ e, applyOne maxDist X Y arkX arkY s ob i (some (ActionC.obtain an)) =
        Except.error e) := by
  constructor
  · show FlockCap s
    induction hreach with
    | init s hinit =>
      intro h hm
      rw [hinit h hm]
      simp [MAX_FLOCK_SIZE]
    | turn s sNext maxDist X Y arkX arkY acts hr hok ih =>
      exact runActions_cap maxDist X Y arkX arkY s sNext acts ih hok
    | disperse s sNext hr hh ha ih =>
      intro h hm
      rw [hh] at hm
      exact ih h hm
  · intro maxDist X Y arkX arkY ob i hi an hget hfull
    by_cases hkind : hi.kind = Kind.Noah
    · refine ⟨"Noah should not perform an action", ?_⟩
      simp only [applyOne, hget]
      rw [if_pos hkind]
    · refine ⟨"helper tried to obtain animal with full flock", ?_⟩
      simp only [applyOne, hget]
      rw [if_neg hkind, if_pos hfull]

/-- Witness for C9 at an initial state with two helpers and empty
flocks, reachable by the init rule. -/
theorem c9_flock_capacity_invariant_witness :
    (∀ h ∈ s9start.helpers, h.flock.card ≤ MAX_FLOCK_SIZE) ∧
    (∀ (maxDist : ℚ) (X Y arkX arkY : ℤ) (ob : List (ℕ × List ℕ)) (i : ℕ)
      (hi : HelperState) (an : ℕ), s9start.helpers.get? i = some hi →
      MAX_FLOCK_SIZE ≤ hi.flock.card →
      ∃ e, applyOne maxDist X Y arkX arkY s9start ob i (some (ActionC.obtain an)) =
        Except.error e) :=
  c9_flock_capacity_invariant s9start
    (Reach.init s9start (by
      intro h hm
      simp only [s9start, List.mem_cons, List.mem_singleton] at hm
      rcases hm with rfl | rfl | hfalse
      · rfl
      · rfl
      · exact absurd hfalse (List.not_mem_nil h)))

end Noah
